import Mathlib

/-
Verification of the metrics pipeline of martinpitt/performance-graphs.

The source is a small React application (several structurally similar
revisions in the repository).  The parts relevant to the claims are:

  * the module constants MSEC_PER_H, INTERVAL, SAMPLES_PER_H, SAMPLES_PER_MIN;
  * scaleForValue and the dynamic ceilings scaleSatCPU / scaleUseDisks /
    scaleUseNetwork (part_000 lines 38-48, 371-377);
  * the RESOURCES normalize functions (part_000 lines 50-94);
  * the sample decoder decompress_samples (part_001 lines 163-176) and the
    inline decoder of part_000's MetricsHistory.load_data (lines 335-357);
  * the per-hour window aggregation of MetricsHistory.load_data
    (part_000 lines 322-331 and 362-384, part_001 lines 691-740);
  * the spike-event detector of MetricsHour (part_000 lines 181-198).

JavaScript numbers are modelled as rationals; JS null / false / array
values are modelled by small inductive types where the code distinguishes
them.  Every definition is translated from the source; deviations forced
by JS dynamic typing (unreachable branches that would throw a TypeError)
are marked by comments at the definition.
-/

/-- part_000 line 28: `const MSEC_PER_H = 3600000`. -/
def MSEC_PER_H : ℕ := 3600000

/-- part_000 line 29: `const INTERVAL = 5000`. -/
def INTERVAL : ℕ := 5000

/-- part_000 line 30: `const SAMPLES_PER_H = MSEC_PER_H / INTERVAL` (= 720). -/
def SAMPLES_PER_H : ℕ := MSEC_PER_H / INTERVAL

/-- part_000 line 31: `const SAMPLES_PER_MIN = SAMPLES_PER_H / 60` (= 12). -/
def SAMPLES_PER_MIN : ℕ := SAMPLES_PER_H / 60

/-- Models `Math.floor(Math.log10 x)` for x > 0 (the only domain on which the
source uses it: `scaleForValue` is called only with values exceeding one of
the positive ceilings).  For 1 ≤ q this is `Nat.log 10 ⌊q⌋`; for 0 < q < 1 it
is the negated number of leading zero digits.  For q ≤ 0 the source would
compute NaN; that branch is never taken and here yields an arbitrary value. -/
def floorLog10 (q : ℚ) : ℤ :=
  if 1 ≤ q then (Nat.log 10 (Int.toNat ⌊q⌋) : ℤ)
  else -(Nat.clog 10 (Int.toNat ⌈q⁻¹⌉) : ℤ)

/-- part_000 lines 44-48:
`const scaleForValue = x => { const scale = Math.pow(10, Math.floor(Math.log10(x))); return Math.ceil(x / scale) * scale; }`. -/
def scaleForValue (x : ℚ) : ℚ :=
  let scale : ℚ := (10 : ℚ) ^ (floorLog10 x)
  (⌈x / scale⌉ : ℤ) * scale

/-- part_000 lines 371-377: each unbounded ceiling is updated by
`if (value > scale) scale = scaleForValue(value)`.  The same statement is
used for scaleSatCPU, scaleUseDisks and scaleUseNetwork. -/
def updateScale (scale x : ℚ) : ℚ :=
  if scale < x then scaleForValue x else scale

/-- part_000 line 55: `normalize: ([nice, user, sys]) => (nice + user + sys) / 1000`. -/
def use_cpu_normalize (nice user sys : ℚ) : ℚ := (nice + user + sys) / 1000

/-- part_000 line 62: `normalize: load => Math.min(load, scaleSatCPU) / scaleSatCPU`.
The ambient mutable ceiling is passed as the first argument. -/
def sat_cpu_normalize (scaleSatCPU load : ℚ) : ℚ :=
  min load scaleSatCPU / scaleSatCPU

/-- part_000 line 69: `normalize: ([total, avail]) => 1 - (avail / total)`. -/
def use_memory_normalize (total avail : ℚ) : ℚ := 1 - avail / total

/-- part_000 line 77: `normalize: swapout => swapout > 1000 ? 1 : (swapout > 1 ? 0.3 : 0)`. -/
def sat_memory_normalize (swapout : ℚ) : ℚ :=
  if 1000 < swapout then 1 else if 1 < swapout then 3 / 10 else 0

/-- part_000 line 84: `normalize: kBps => kBps / scaleUseDisks` (note: no
`Math.min` clipping, unlike sat_cpu). -/
def use_disks_normalize (scaleUseDisks kBps : ℚ) : ℚ := kBps / scaleUseDisks

/-- part_000 line 91: `normalize: bps => bps / scaleUseNetwork` (no clipping). -/
def use_network_normalize (scaleUseNetwork bps : ℚ) : ℚ := bps / scaleUseNetwork

/-! ### Sample decoder (part_001 decompress_samples)

The metrics1 channel compresses each tick: a metric entry is a number
(new reading), `null` (unchanged), `false` (explicitly unavailable), or,
for instanced metrics, an array whose elements are again number / null /
false.  The decoder state holds the last valid value per metric index. -/

/-- One element of an instance array in a compressed tick: a number, `null`
(unchanged) or `false` (unavailable). -/
inductive InstEntry where
  | inum (v : ℚ)
  | inull
  | ifls
deriving DecidableEq

/-- One metric entry of a compressed tick (part_001 protocol comment,
lines 160-162). -/
inductive Sample where
  | num (v : ℚ)
  | null
  | fls
  | inst (l : List InstEntry)
deriving DecidableEq

/-- One slot of the decoder state array: `unknown` models a JS array hole /
`undefined` (no real reading yet), otherwise the last stored scalar or
instance array (whose own holes are `none`). -/
inductive StateEntry where
  | unknown
  | snum (v : ℚ)
  | sarr (a : List (Option ℚ))
deriving DecidableEq

/-- JS `st[k] = x` on an array: in range it replaces index k, out of range it
extends the array, padding skipped indices with holes. -/
def jsArraySet {β : Type} (hole : β) (st : List β) (k : ℕ) (x : β) : List β :=
  if k < st.length then st.set k x
  else st ++ List.replicate (k - st.length) hole ++ [x]

/-- JS `sample.forEach((g, k) => { if (test g) st[k] = f g; })` starting at
index k: each element for which `pick` succeeds overwrites state index k. -/
def jsForEachSet {β γ : Type} (pick : γ → Option β) (hole : β) :
    List γ → List β → ℕ → List β
  | [], st, _ => st
  | g :: rest, st, k =>
      match pick g with
      | some x => jsForEachSet pick hole rest (jsArraySet hole st k x) (k + 1)
      | none => jsForEachSet pick hole rest st (k + 1)

/-- part_001 line 170: `if (typeof inst === 'number') state[i][k] = inst`. -/
def instPick : InstEntry → Option (Option ℚ)
  | .inum v => some (some v)
  | _ => none

/-- The per-instance update loop of decompress_samples (part_001 lines
169-172), acting on one stored instance array. -/
def updateInsts (a : List (Option ℚ)) (l : List InstEntry) : List (Option ℚ) :=
  jsForEachSet instPick none l a 0

/-- The body of the decompress_samples forEach for one metric index
(part_001 lines 164-175).  The source checks `sample instanceof Array`
first, then `typeof sample === 'number'`; anything else (null / false) is
left untouched.  `if (!state[i]) state[i] = []` replaces a hole — and also
a stored number 0, which is falsy in JS — by an empty array before the
per-instance update; a stored nonzero number is truthy, and the subsequent
indexed assignments on a number primitive are silent no-ops in JS. -/
def decompressEntry (s : Sample) (st : StateEntry) : StateEntry :=
  match s with
  | .inst l =>
      match st with
      | .sarr a => .sarr (updateInsts a l)
      | .snum v => if v = 0 then .sarr (updateInsts [] l) else .snum v
      | .unknown => .sarr (updateInsts [] l)
  | .num v => .snum v
  | .null => st
  | .fls => st

/-- part_001 lines 163-176: `function decompress_samples(samples, state)`.
The JS function mutates `state` in place; here the updated state is
returned.  Indices of `state` beyond `samples.length` are untouched; a JS
read past the end of `state` yields `undefined`, modelled by `unknown`. -/
def decompress_samples : List Sample → List StateEntry → List StateEntry
  | [], st => st
  | s :: ss, [] => decompressEntry s .unknown :: decompress_samples ss []
  | s :: ss, t :: ts => decompressEntry s t :: decompress_samples ss ts

/-- Reading instance k of a stored instance array; a hole (`none` entry) and
an out-of-range read both give `undefined`, collapsed to `none`. -/
def instVal (a : List (Option ℚ)) (k : ℕ) : Option ℚ := (a[k]?).bind id

/-- First-defined choice, used to state decode characterizations. -/
def orD (o d : Option ℚ) : Option ℚ :=
  match o with
  | some v => some v
  | none => d

/-- The real reading delivered for instance index i of a compressed
instance array, if any. -/
def pick (l : List InstEntry) (i : ℕ) : Option ℚ :=
  match l[i]? with
  | some (.inum v) => some v
  | _ => none

/-! ### Window aggregator (part_000 MetricsHistory.load_data)

`load_data` keeps a cursor `(current_hour, hour_index)` and a store
`this.data : hour timestamp → array of SAMPLES_PER_H slots`.  A meta
message positions the cursor; each sample of a data batch is written at
the cursor, which is then advanced with rollover into the next hour.
The stored values are the reduced sample records; the aggregation logic
is independent of their shape, so the slot payload is a type parameter. -/

/-- The mutable fetch state captured by the load_data closure: the cursor
(part_000 lines 298-299) and the hour → slots store (line 264).  A slot
value `none` models both a missing hour array and a null slot entry
(`init_current_hour` fills fresh hours with nulls, part_000 line 318). -/
structure AggState (α : Type) where
  current_hour : ℕ
  hour_index : ℕ
  data : ℕ → ℕ → Option α

/-- The state at the start of a fresh `load_data` call: no hour has data. -/
def freshAgg (α : Type) : AggState α := ⟨0, 0, fun _ _ => none⟩

/-- part_000 lines 323-330: on a meta message,
`current_hour = Math.floor(message.timestamp / MSEC_PER_H) * MSEC_PER_H` and
`hour_index = Math.floor((message.timestamp - current_hour) / INTERVAL)`. -/
def metaStep {α : Type} (s : AggState α) (t : ℕ) : AggState α :=
  { s with
    current_hour := t / MSEC_PER_H * MSEC_PER_H
    hour_index := (t - t / MSEC_PER_H * MSEC_PER_H) / INTERVAL }

/-- part_000 line 362: `this.data[current_hour][hour_index] = {...}`. -/
def writeData {α : Type} (s : AggState α) (v : α) : ℕ → ℕ → Option α :=
  fun hr i => if hr = s.current_hour ∧ i = s.hour_index then some v else s.data hr i

/-- The cursor-hour update of part_000 lines 379-384:
`if (++hour_index === SAMPLES_PER_H) { current_hour += MSEC_PER_H; ... }`. -/
def nextHour (ch hi : ℕ) : ℕ :=
  if hi + 1 = SAMPLES_PER_H then ch + MSEC_PER_H else ch

/-- The cursor-index update of part_000 lines 379-384: `hour_index = 0` on
rollover, otherwise the incremented index. -/
def nextIdx (hi : ℕ) : ℕ :=
  if hi + 1 = SAMPLES_PER_H then 0 else hi + 1

/-- Processing one sample of a data batch (part_000 lines 362-384): write
the reduced record at the cursor, then advance the cursor with rollover.
part_000 performs the write unconditionally — there is no populated-slot
check. -/
def tickStep {α : Type} (s : AggState α) (v : α) : AggState α :=
  ⟨nextHour s.current_hour s.hour_index, nextIdx s.hour_index, writeData s v⟩

/-- Processing a whole data batch (part_000 line 335: `message.forEach`). -/
def feed {α : Type} (s : AggState α) (vs : List α) : AggState α :=
  vs.foldl tickStep s

/-- part_001 lines 707-711: the same per-sample step, but guarded by
`if (typeof current_sample[0] !== 'number' && this.data[current_hour][hour_index]) return;`
— the write (and the cursor advance, which the early `return` also skips)
happens unless the freshly decoded first metric is not a number and the
slot already holds a (truthy) record.  `isNum0` is that typeof test. -/
def tickStep1 {α : Type} (s : AggState α) (isNum0 : Bool) (v : α) : AggState α :=
  if isNum0 = false ∧ (s.data s.current_hour s.hour_index).isSome then s
  else tickStep s v

/-- First-defined choice on an arbitrary Option, used to express the slot
store after a batch. -/
def orElseD {α : Type} (o d : Option α) : Option α :=
  match o with
  | some w => some w
  | none => d

/-- The value the batch `vs` writes at store position (hr, i) when started
from cursor (ch, hi) — the last write wins, matching the mutation order. -/
def findWrite {α : Type} : List α → ℕ → ℕ → ℕ → ℕ → Option α
  | [], _, _, _, _ => none
  | v :: rest, ch, hi, hr, i =>
      orElseD (findWrite rest (nextHour ch hi) (nextIdx hi) hr i)
        (if hr = ch ∧ i = hi then some v else none)

/-- The hour key that the n-th sample after cursor (ch, hi) is written to. -/
def posHour (ch hi n : ℕ) : ℕ :=
  ch + (hi + n) / SAMPLES_PER_H * MSEC_PER_H

/-- The slot index that the n-th sample after cursor index hi is written to. -/
def posIdx (hi n : ℕ) : ℕ := (hi + n) % SAMPLES_PER_H

/-! ### part_000 inline decoder and reducer (MetricsHistory.load_data)

part_000 does not use decompress_samples; its load_data decompresses
inline (lines 335-357) into `current_sample`, an array pre-filled with
nulls (line 300), then builds the reduced record (lines 360-369). -/

/-- part_000 line 121: `const LOAD_INDEX = 3`. -/
def LOAD_INDEX : ℕ := 3

/-- part_000 line 122: `const NET_TOTAL_INDEX = 8`. -/
def NET_TOTAL_INDEX : ℕ := 8

/-- A JS value inside a stored instance array of part_000: a number, null,
false, or a hole created by an out-of-range indexed assignment. -/
inductive JAtom where
  | anum (q : ℚ)
  | anull
  | afls
  | ahole
deriving DecidableEq

/-- One metric entry of a compressed tick, as part_000's inline decoder
distinguishes them: number, null, false, or an instance array. -/
inductive PSample where
  | pnum (q : ℚ)
  | pnull
  | pfls
  | parr (l : List JAtom)
deriving DecidableEq

/-- One entry of part_000's `current_sample` array: initially null
(line 300: `Array(METRICS.length).fill(null)`), later a number, the value
`false`, or an instance array (only at NET_TOTAL_INDEX in well-formed
streams). -/
inductive CState0 where
  | cnull
  | cnum (q : ℚ)
  | cfls
  | carr (l : List JAtom)
deriving DecidableEq

/-- part_000 lines 347-349: `if (iface !== null && iface !== false)
current_sample[NET_TOTAL_INDEX][k] = iface` — array holes are skipped by
JS forEach, so they never reach the test. -/
def netPick : JAtom → Option JAtom
  | .anum q => some (.anum q)
  | _ => none

/-- The per-interface update loop of part_000 lines 347-350. -/
def netUpd (st : List JAtom) (sample : List JAtom) : List JAtom :=
  jsForEachSet netPick .ahole sample st 0

/-- part_000 lines 344-351: the network entry is assigned wholesale while
still null, and updated per-instance afterwards. -/
def netStep (st : Option (List JAtom)) (sample : List JAtom) : Option (List JAtom) :=
  match st with
  | none => some sample
  | some l => some (netUpd l sample)

/-- part_000 line 360: `current_sample[NET_TOTAL_INDEX].reduce((acc, cur) =>
acc + cur, 0)`.  JS `+` coerces null and false to 0, and Array.prototype
.reduce skips holes entirely. -/
def jsSumAtoms (l : List JAtom) : ℚ :=
  l.foldl (fun acc a =>
    match a with
    | .anum q => acc + q
    | .anull => acc + 0
    | .afls => acc + 0
    | .ahole => acc) 0

/-- The body of part_000's inline decompress forEach for metric index i
(lines 337-356).  LOAD_INDEX: `if (sample && sample[1] !== undefined &&
sample[1] !== null && sample[1] !== false) current_sample[i] = sample[1]`
(a non-array sample is either falsy or has undefined `[1]`, so only an
array with a numeric element 1 stores).  NET_TOTAL_INDEX: wholesale
assignment while the state is null, per-instance update on a stored array;
an indexed assignment on a stored number or false primitive is a silent
no-op in JS; a null/false sample arriving for an initialized array state
would make the source throw in `sample.forEach` — that branch is
unreachable for well-formed instanced ticks and modelled as a no-op.
Scalar indices: `if (sample !== null && sample !== false)
current_sample[i] = sample`. -/
def decEntry0 (i : ℕ) (st : CState0) (s : PSample) : CState0 :=
  if i = LOAD_INDEX then
    match s with
    | .parr l =>
        match l[1]? with
        | some (JAtom.anum q) => .cnum q
        | _ => st
    | _ => st
  else if i = NET_TOTAL_INDEX then
    match st, s with
    | .cnull, .parr l => .carr l
    | .cnull, .pnum q => .cnum q
    | .cnull, .pnull => .cnull
    | .cnull, .pfls => .cfls
    | .carr a, .parr l => .carr (netUpd a l)
    | st0, _ => st0
  else
    match s with
    | .pnum q => .cnum q
    | .parr l => .carr l
    | _ => st

/-- part_000 lines 337-357: `samples.forEach((sample, i) => ...)` over one
tick row, starting at metric index i. -/
def decompress0Row : List PSample → List CState0 → ℕ → List CState0
  | [], cs, _ => cs
  | s :: row, [], i => decEntry0 i .cnull s :: decompress0Row row [] (i + 1)
  | s :: row, c :: cs, i => decEntry0 i c s :: decompress0Row row cs (i + 1)

/-- Decompressing one tick row of part_000 (indices start at 0). -/
def decompress0 (row : List PSample) (cs : List CState0) : List CState0 :=
  decompress0Row row cs 0

/-- Reading `current_sample[i]`; past the end JS yields undefined, but the
initial fill keeps all 9 indices present, so cnull is the faithful default. -/
def getC (cs : List CState0) (i : ℕ) : CState0 := cs.getD i .cnull

/-- The reduced record part_000 stores per slot (lines 362-369), with
use_cpu and use_memory kept as their component tuples. -/
structure RSample0 where
  use_cpu0 : CState0
  use_cpu1 : CState0
  use_cpu2 : CState0
  sat_cpu : CState0
  use_memory_total : CState0
  use_memory_avail : CState0
  sat_memory : CState0
  use_disks : CState0
  use_network : Option ℚ

/-- part_000 lines 360-369: the record built from `current_sample`.  The
`use_network` sum is only defined when the network entry is an array; on a
null/false/number entry the source's `.reduce` call would throw, modelled
as `none`. -/
def buildRecord0 (cs : List CState0) : RSample0 :=
  { use_cpu0 := getC cs 0
    use_cpu1 := getC cs 1
    use_cpu2 := getC cs 2
    sat_cpu := getC cs LOAD_INDEX
    use_memory_total := getC cs 4
    use_memory_avail := getC cs 5
    sat_memory := getC cs 6
    use_disks := getC cs 7
    use_network :=
      match getC cs NET_TOTAL_INDEX with
      | .carr l => some (jsSumAtoms l)
      | _ => none }

/-- JS numeric coercion of a stored component when the renderer computes
`(nice + user + sys) / 1000`: null and false coerce to 0; an array operand
would make `+` concatenate strings instead, modelled as `none`. -/
def jsNumC : CState0 → Option ℚ
  | .cnull => some 0
  | .cnum q => some q
  | .cfls => some 0
  | .carr _ => none

/-- The renderer's use_cpu normalization (part_000 line 55) applied to a
stored component triple, with JS null-to-0 coercion. -/
def normalizeUseCpu (a b c : CState0) : Option ℚ :=
  match jsNumC a, jsNumC b, jsNumC c with
  | some x, some y, some z => some ((x + y + z) / 1000)
  | _, _, _ => none

/-! ### part_001 reducer guards (MetricsHistory.load_data, lines 714-722)

part_001 keeps `current_sample` as a plain array decoded by
decompress_samples and guards the reduced fields with typeof checks. -/

/-- The value of a decoder state entry when it holds a number. -/
def entNum : StateEntry → Option ℚ
  | .snum q => some q
  | _ => none

/-- Reading `current_sample[i]` of part_001 (initially `[]`, so missing
indices are undefined / unknown). -/
def getS (cs : List StateEntry) (i : ℕ) : StateEntry := cs.getD i .unknown

/-- part_001 line 718: `use_cpu: typeof current_sample[2] === 'number' ?
[current_sample[0], current_sample[1], current_sample[2]] : null`. -/
def use_cpu1 (cs : List StateEntry) :
    Option (StateEntry × StateEntry × StateEntry) :=
  match entNum (getS cs 2) with
  | some _ => some (getS cs 0, getS cs 1, getS cs 2)
  | none => none

/-- part_001 line 715: `typeof current_sample[3][1] === 'number' ?
current_sample[3][1] : null` (instances 15min, 1min, 5min; pick 1min).
On a non-array entry the index read yields undefined (or throws for an
unknown entry, which cannot happen after the first full tick), so the
result is null. -/
def sat_cpu1 (cs : List StateEntry) : Option ℚ :=
  match getS cs 3 with
  | .sarr a => instVal a 1
  | _ => none

/-- part_001 line 720: `use_memory: typeof current_sample[5] === 'number' ?
[current_sample[4], current_sample[5]] : null`. -/
def use_memory1 (cs : List StateEntry) : Option (StateEntry × StateEntry) :=
  match entNum (getS cs 5) with
  | some _ => some (getS cs 4, getS cs 5)
  | none => none

/-! ### Spike-event detector (part_000 MetricsHour, lines 181-198)

For each resource type the detector initializes
`prev_val = data[0] ? data[0][type] : null` — the RAW (unnormalized) value
of the first sample — and then walks the normalized series, skipping null
samples, emitting an event when
`value - prev_val > 0.25 || (prev_val < 0.8 && value >= 0.8)`,
and setting `prev_val = value` (normalized) after each non-null sample.
JS numbers are modelled as exact rationals; the JS coercions a raw array
value undergoes in `-` and `<` are modelled by `toNum` (NaN as `none`;
every comparison against NaN is false). -/

/-- A JS value that can appear as `prev_val`: null, a number, or a raw
array sample (use_cpu / use_memory tuples). -/
inductive JVal where
  | jnull
  | jnum (q : ℚ)
  | jarr (l : List InstEntry)

/-- JS ToNumber as used by `value - prev_val` and `prev_val < 0.8`:
null coerces to 0; an array is converted via its comma-joined string, so
`[]` gives 0, a one-element array gives its element's coercion (`[null]`
is the empty string, i.e. 0; `[false]` is the string "false", i.e. NaN),
and two or more elements always contain a comma, i.e. NaN.  NaN is
`none`, and every `<`/`>` comparison involving it is false. -/
def toNum : JVal → Option ℚ
  | .jnull => some 0
  | .jnum q => some q
  | .jarr [] => some 0
  | .jarr [.inum q] => some q
  | .jarr [.inull] => some 0
  | .jarr [.ifls] => none
  | .jarr (_ :: _ :: _) => none

/-- The numeric trigger condition of part_000 line 190 on real numbers:
either a slope above 0.25 or an upward crossing of the 0.8 threshold. -/
def trigCond (q v : ℚ) : Prop :=
  1 / 4 < v - q ∨ (q < 4 / 5 ∧ 4 / 5 ≤ v)

instance instTrigCondDecidable (q v : ℚ) : Decidable (trigCond q v) :=
  inferInstanceAs (Decidable (1 / 4 < v - q ∨ (q < 4 / 5 ∧ 4 / 5 ≤ v)))

/-- part_000 line 190: `prev_val !== null && (value - prev_val > 0.25 ||
(prev_val < 0.8 && value >= 0.8))`, with NaN comparisons false. -/
def jsTriggers (prev : JVal) (v : ℚ) : Bool :=
  match prev with
  | .jnull => false
  | p =>
      match toNum p with
      | some q => decide (trigCond q v)
      | none => false

/-- The forEach of part_000 lines 185-197 over the normalized series,
producing one trigger flag per sample position: null samples yield no
event and leave prev unchanged; non-null samples test the condition and
become the new prev. -/
def detectFlags : List (Option ℚ) → JVal → List Bool
  | [], _ => []
  | none :: rest, prev => false :: detectFlags rest prev
  | some v :: rest, prev => jsTriggers prev v :: detectFlags rest (.jnum v)

/-- The last non-null value among the first i entries of the series (the
"last real previous value" of the spec's description). -/
def lastReal : List (Option ℚ) → ℕ → Option ℚ
  | _, 0 => none
  | [], _ + 1 => none
  | x :: rest, i + 1 =>
      match lastReal rest i with
      | some p => some p
      | none => x

/-- The prev value in effect at position i when the walk started with
`prev`. -/
def prevAt (norm : List (Option ℚ)) (prev : JVal) (i : ℕ) : JVal :=
  match lastReal norm i with
  | some p => JVal.jnum p
  | none => prev

/-- part_000 line 184: `data[0] ? data[0][type] : null` — the raw value of
the first sample, converted to the JS value the comparisons see. -/
def initPrev {β : Type} (toJ : β → JVal) (data : List (Option β)) : JVal :=
  match data.head? with
  | some (some r) => toJ r
  | _ => .jnull

/-- The full per-resource detector of part_000 lines 183-197: normalize
the series (line 154-161 / 188) and walk it starting from the raw first
sample as prev. -/
def detectRes {β : Type} (toJ : β → JVal) (norm : β → ℚ)
    (data : List (Option β)) : List Bool :=
  detectFlags (data.map (Option.map norm)) (initPrev toJ data)

/-- The trigger flags the spec describes: position i fires exactly when the
sample is non-null, some previous non-null value exists, and the numeric
condition holds against that last non-null value. -/
def specFlag (norm : List (Option ℚ)) (i : ℕ) : Option Bool :=
  (norm[i]?).map (fun o =>
    match o with
    | none => false
    | some v =>
        match lastReal norm i with
        | some p => decide (trigCond p v)
        | none => false)

/-- The indices at which a flag list fires, offset by i0. -/
def trigIdxFrom : List Bool → ℕ → List ℕ
  | [], _ => []
  | b :: rest, i => (if b then [i] else []) ++ trigIdxFrom rest (i + 1)

/-- part_000 line 191: each firing sample is charged to the minute bucket
`Math.floor(i / SAMPLES_PER_MIN)`. -/
def eventMinutes (flags : List Bool) : List ℕ :=
  (trigIdxFrom flags 0).map (· / SAMPLES_PER_MIN)

/-- The raw use_cpu sample [nice, user, sys] as the JS value `prev_val`
holds at position 0. -/
def cpuToJ (r : ℚ × ℚ × ℚ) : JVal :=
  .jarr [.inum r.1, .inum r.2.1, .inum r.2.2]

/-- The raw use_memory sample [total, avail] as a JS value. -/
def memToJ (r : ℚ × ℚ) : JVal := .jarr [.inum r.1, .inum r.2]

/-- use_cpu normalization on the stored triple. -/
def use_cpu_normP (r : ℚ × ℚ × ℚ) : ℚ := use_cpu_normalize r.1 r.2.1 r.2.2

/-- use_memory normalization on the stored pair. -/
def use_memory_normP (r : ℚ × ℚ) : ℚ := use_memory_normalize r.1 r.2

/-! ### Helper lemmas for the dynamic range estimator -/

theorem scaleForValue_ge (x : ℚ) : x ≤ scaleForValue x := by
  unfold scaleForValue
  have hp : (0 : ℚ) < (10 : ℚ) ^ (floorLog10 x) := by positivity
  calc x = x / (10 : ℚ) ^ (floorLog10 x) * (10 : ℚ) ^ (floorLog10 x) := by
            field_simp
    _ ≤ (⌈x / (10 : ℚ) ^ (floorLog10 x)⌉ : ℤ) * (10 : ℚ) ^ (floorLog10 x) := by
            exact mul_le_mul_of_nonneg_right (Int.le_ceil _) hp.le

theorem updateScale_ge (scale x : ℚ) : scale ≤ updateScale scale x := by
  unfold updateScale
  split
  · exact le_trans (le_of_lt (by assumption)) (scaleForValue_ge x)
  · exact le_refl _

/-- C5: each dynamic scale ceiling is non-decreasing: it is recomputed only
when the observed value strictly exceeds it, and the recomputed ceiling
`ceil(value / 10^floor(log10 value)) * 10^floor(log10 value)` is never
smaller than the value, hence never smaller than the previous ceiling;
consequently the ceiling is non-decreasing across any sequence of
observations (modelled as a left fold of `updateScale`). -/
theorem c5_scale_monotonic :
    (∀ scale x : ℚ, 0 < scale →
      scale ≤ updateScale scale x
      ∧ (x ≤ scale → updateScale scale x = scale)
      ∧ (scale < x → updateScale scale x = scaleForValue x ∧ x ≤ scaleForValue x))
    ∧ (∀ (l : List ℚ) (scale : ℚ), 0 < scale → scale ≤ l.foldl updateScale scale) := by
  constructor
  · intro scale x _
    refine ⟨updateScale_ge scale x, ?_, ?_⟩
    · intro hxs
      unfold updateScale
      rw [if_neg (not_lt.mpr hxs)]
    · intro hsx
      constructor
      · unfold updateScale
        rw [if_pos hsx]
      · exact scaleForValue_ge x
  · intro l
    induction l with
    | nil => intro scale _; exact le_refl _
    | cons a t ih =>
        intro scale hs
        have h1 : scale ≤ updateScale scale a := updateScale_ge scale a
        have h2 : 0 < updateScale scale a := lt_of_lt_of_le hs h1
        exact le_trans h1 (ih (updateScale scale a) h2)

/-- Witness for C5 at ceiling 4 (the scaleSatCPU seed) and observation 7. -/
theorem c5_scale_monotonic_witness :
    (0 : ℚ) < 4 ∧ (4 : ℚ) ≤ updateScale 4 7 :=
  ⟨by norm_num, (c5_scale_monotonic.1 4 7 (by norm_num)).1⟩

/-- C4 counterexample: the claim states `normalize(value) = min(value, ceiling)
/ ceiling` for every unbounded resource, but the disk normalizer divides
without clipping: at the seed ceiling 10000 and observed value 20000 it
returns 2, while the claimed formula gives 1. -/
theorem c4_normalize_counterexample :
    use_disks_normalize 10000 20000 ≠ min (20000 : ℚ) 10000 / 10000 := by
  norm_num [use_disks_normalize]

/-- C4 (amended): only the CPU-load normalizer clips with `Math.min`, so
`sat_cpu_normalize` equals `min(value, ceiling)/ceiling` and always lies in
[0,1] with overshoot clipped to 1; the disk and network normalizers compute
`value / ceiling` without clipping, so their result is in [0,1] exactly when
the value does not exceed the ceiling. -/
theorem c4_normalize_amended :
    ∀ v c : ℚ, 0 ≤ v → 0 < c →
      (sat_cpu_normalize c v = min v c / c
        ∧ 0 ≤ sat_cpu_normalize c v
        ∧ sat_cpu_normalize c v ≤ 1
        ∧ (c ≤ v → sat_cpu_normalize c v = 1))
      ∧ (use_disks_normalize c v = v / c
        ∧ 0 ≤ use_disks_normalize c v
        ∧ (use_disks_normalize c v ≤ 1 ↔ v ≤ c))
      ∧ (use_network_normalize c v = v / c
        ∧ 0 ≤ use_network_normalize c v
        ∧ (use_network_normalize c v ≤ 1 ↔ v ≤ c)) := by
  intro v c hv hc
  refine ⟨⟨rfl, ?_, ?_, ?_⟩, ⟨rfl, ?_, ?_⟩, ⟨rfl, ?_, ?_⟩⟩
  · unfold sat_cpu_normalize
    have : (0 : ℚ) ≤ min v c := le_min hv hc.le
    positivity
  · unfold sat_cpu_normalize
    rw [div_le_one hc]
    exact min_le_right v c
  · intro hcv
    unfold sat_cpu_normalize
    rw [min_eq_right hcv, div_self hc.ne']
  · unfold use_disks_normalize; positivity
  · unfold use_disks_normalize; exact div_le_one hc
  · unfold use_network_normalize; positivity
  · unfold use_network_normalize; exact div_le_one hc

/-- Witness for the amended C4 at value 20000, ceiling 10000: the disk
normalizer exceeds 1 exactly because the value exceeds the ceiling. -/
theorem c4_normalize_amended_witness :
    (0 : ℚ) ≤ 20000 ∧ (0 : ℚ) < 10000
      ∧ ¬ use_disks_normalize 10000 20000 ≤ 1 :=
  ⟨by norm_num, by norm_num,
   fun h => by
    have := ((c4_normalize_amended 20000 10000 (by norm_num) (by norm_num)).2.1.2.2).mp h
    norm_num at this⟩

/-- C8 counterexample: the claim says a swap-out rate of exactly 1000 maps
to 1 and any rate in (0, 1000) maps to 0.3; the code's strict comparisons
give 0.3 at 1000 and 0 at 1/2. -/
theorem c8_sat_memory_counterexample :
    sat_memory_normalize 1000 = 3 / 10 ∧ (3 / 10 : ℚ) ≠ 1
      ∧ sat_memory_normalize (1 / 2) = 0 ∧ (0 : ℚ) ≠ 3 / 10 := by
  refine ⟨?_, by norm_num, ?_, by norm_num⟩
  · unfold sat_memory_normalize
    norm_num
  · unfold sat_memory_normalize
    norm_num

/-- C8 (amended): the swap-out categorization maps s ≤ 1 to 0 (including
small positive rates up to 1 page/s), 1 < s ≤ 1000 to 0.3, and s > 1000
to 1 — both boundaries are strict in favor of the lower category. -/
theorem c8_sat_memory_amended :
    ∀ s : ℚ,
      (s ≤ 1 → sat_memory_normalize s = 0)
      ∧ (1 < s → s ≤ 1000 → sat_memory_normalize s = 3 / 10)
      ∧ (1000 < s → sat_memory_normalize s = 1) := by
  intro s
  refine ⟨?_, ?_, ?_⟩
  · intro h1
    unfold sat_memory_normalize
    rw [if_neg (by linarith), if_neg (by linarith)]
  · intro h1 h2
    unfold sat_memory_normalize
    rw [if_neg (by linarith), if_pos h1]
  · intro h
    unfold sat_memory_normalize
    rw [if_pos h]

/-- Witness for the amended C8 at s = 2 (a small but nonzero swap-out rate). -/
theorem c8_sat_memory_amended_witness :
    (1 : ℚ) < 2 ∧ (2 : ℚ) ≤ 1000 ∧ sat_memory_normalize 2 = 3 / 10 :=
  ⟨by norm_num, by norm_num, (c8_sat_memory_amended 2).2.1 (by norm_num) (by norm_num)⟩

/-! ### Decoder lemmas -/

theorem pick_nil (i : ℕ) : pick [] i = none := by
  simp [pick]

theorem pick_cons_succ (e : InstEntry) (rest : List InstEntry) (n : ℕ) :
    pick (e :: rest) (n + 1) = pick rest n := by
  simp [pick]

theorem pick_cons_zero_inum (v : ℚ) (rest : List InstEntry) :
    pick (InstEntry.inum v :: rest) 0 = some v := by
  simp [pick]

theorem pick_cons_zero_inull (rest : List InstEntry) :
    pick (InstEntry.inull :: rest) 0 = none := by
  simp [pick]

theorem pick_cons_zero_ifls (rest : List InstEntry) :
    pick (InstEntry.ifls :: rest) 0 = none := by
  simp [pick]

theorem instVal_jsArraySet (a : List (Option ℚ)) (k : ℕ) (v : ℚ) (j : ℕ) :
    instVal (jsArraySet none a k (some v)) j
      = if j = k then some v else instVal a j := by
  unfold jsArraySet instVal
  by_cases hk : k < a.length
  · rw [if_pos hk, List.getElem?_set]
    by_cases hjk : j = k
    · subst hjk
      simp [hk]
    · rw [if_neg (fun h => hjk h.symm), if_neg hjk]
  · rw [if_neg hk]
    push_neg at hk
    rw [List.append_assoc, List.getElem?_append]
    by_cases hj : j < a.length
    · rw [if_pos hj, if_neg (show ¬ j = k by omega)]
    · push_neg at hj
      rw [if_neg (not_lt.mpr hj), List.getElem?_append]
      rcases Nat.lt_trichotomy j k with h | h | h
      · rw [if_pos (show j - a.length
              < (List.replicate (k - a.length) (none : Option ℚ)).length by
            rw [List.length_replicate]; omega),
          List.getElem?_replicate,
          if_pos (show j - a.length < k - a.length by omega),
          if_neg (show ¬ j = k by omega), List.getElem?_eq_none hj]
        rfl
      · rw [if_neg (show ¬ j - a.length
              < (List.replicate (k - a.length) (none : Option ℚ)).length by
            rw [List.length_replicate]; omega),
          List.length_replicate,
          show j - a.length - (k - a.length) = 0 by omega, if_pos h]
        simp
      · rw [if_neg (show ¬ j - a.length
              < (List.replicate (k - a.length) (none : Option ℚ)).length by
            rw [List.length_replicate]; omega),
          List.length_replicate,
          show j - a.length - (k - a.length) = (j - k - 1) + 1 by omega,
          if_neg (show ¬ j = k by omega), List.getElem?_eq_none hj]
        simp

theorem instVal_updateInsts_from (l : List InstEntry) :
    ∀ (a : List (Option ℚ)) (k j : ℕ),
      instVal (jsForEachSet instPick none l a k) j
        = orD (if k ≤ j then pick l (j - k) else none) (instVal a j) := by
  induction l with
  | nil =>
      intro a k j
      show instVal a j = _
      rw [pick_nil]
      by_cases h : k ≤ j
      · rw [if_pos h]; rfl
      · rw [if_neg h]; rfl
  | cons e rest ih =>
      intro a k j
      cases e with
      | inum v =>
          show instVal (jsForEachSet instPick none rest
                (jsArraySet none a k (some v)) (k + 1)) j = _
          rw [ih (jsArraySet none a k (some v)) (k + 1) j,
            instVal_jsArraySet a k v j]
          rcases Nat.lt_trichotomy j k with h | h | h
          · rw [if_neg (show ¬ k + 1 ≤ j by omega),
              if_neg (show ¬ j = k by omega), if_neg (show ¬ k ≤ j by omega)]
          · rw [if_neg (show ¬ k + 1 ≤ j by omega), if_pos h,
              if_pos (show k ≤ j by omega), show j - k = 0 by omega,
              pick_cons_zero_inum]
            rfl
          · rw [if_pos (show k + 1 ≤ j by omega),
              if_neg (show ¬ j = k by omega), if_pos (show k ≤ j by omega),
              show j - k = (j - (k + 1)) + 1 by omega, pick_cons_succ]
      | inull =>
          show instVal (jsForEachSet instPick none rest a (k + 1)) j = _
          rw [ih a (k + 1) j]
          rcases Nat.lt_trichotomy j k with h | h | h
          · rw [if_neg (show ¬ k + 1 ≤ j by omega),
              if_neg (show ¬ k ≤ j by omega)]
          · rw [if_neg (show ¬ k + 1 ≤ j by omega),
              if_pos (show k ≤ j by omega), show j - k = 0 by omega,
              pick_cons_zero_inull]
          · rw [if_pos (show k + 1 ≤ j by omega),
              if_pos (show k ≤ j by omega),
              show j - k = (j - (k + 1)) + 1 by omega, pick_cons_succ]
      | ifls =>
          show instVal (jsForEachSet instPick none rest a (k + 1)) j = _
          rw [ih a (k + 1) j]
          rcases Nat.lt_trichotomy j k with h | h | h
          · rw [if_neg (show ¬ k + 1 ≤ j by omega),
              if_neg (show ¬ k ≤ j by omega)]
          · rw [if_neg (show ¬ k + 1 ≤ j by omega),
              if_pos (show k ≤ j by omega), show j - k = 0 by omega,
              pick_cons_zero_ifls]
          · rw [if_pos (show k + 1 ≤ j by omega),
              if_pos (show k ≤ j by omega),
              show j - k = (j - (k + 1)) + 1 by omega, pick_cons_succ]

theorem decompressEntry_skip (s : Sample) (st : StateEntry)
    (h : s = Sample.null ∨ s = Sample.fls) : decompressEntry s st = st := by
  rcases h with h | h <;> subst h <;> rfl

/-- C3: decoding a tick whose entries are all omitted (null) or all marked
explicitly unavailable (false) leaves the decoder state unchanged
(carry-forward idempotence); and for an instance-array entry decoded into a
stored instance array, instance k reads the newly delivered real reading if
one is present, and otherwise retains its prior value. -/
theorem c3_carry_forward_idempotence :
    (∀ (samples : List Sample) (state : List StateEntry),
      (∀ e ∈ state, e ≠ StateEntry.unknown) →
      (∀ s ∈ samples, s = Sample.null ∨ s = Sample.fls) →
      samples.length ≤ state.length →
      decompress_samples samples state = state)
    ∧ (∀ (a : List (Option ℚ)) (l : List InstEntry),
        decompressEntry (Sample.inst l) (StateEntry.sarr a)
          = StateEntry.sarr (updateInsts a l)
        ∧ ∀ k, instVal (updateInsts a l) k = orD (pick l k) (instVal a k)) := by
  constructor
  · intro samples
    induction samples with
    | nil => intro state _ _ _; rfl
    | cons s ss ih =>
        intro state hinit hall hlen
        cases state with
        | nil => simp at hlen
        | cons t ts =>
            show decompressEntry s t :: decompress_samples ss ts = t :: ts
            rw [decompressEntry_skip s t (hall s (by simp)),
              ih ts (fun e he => hinit e (by simp [he]))
                (fun x hx => hall x (by simp [hx])) (by simpa using hlen)]
  · intro a l
    refine ⟨rfl, fun k => ?_⟩
    have h := instVal_updateInsts_from l a 0 k
    simpa using h

/-- Witness for C3: a fully initialized two-entry state survives a tick of
one null and one false entry, and a partial instance update [null, 7]
overwrites only instance 1. -/
theorem c3_carry_forward_idempotence_witness :
    ((∀ e ∈ [StateEntry.snum 5, StateEntry.sarr [some 1, some 2]],
        e ≠ StateEntry.unknown)
      ∧ decompress_samples [Sample.null, Sample.fls]
          [StateEntry.snum 5, StateEntry.sarr [some 1, some 2]]
        = [StateEntry.snum 5, StateEntry.sarr [some 1, some 2]])
    ∧ instVal (updateInsts [some 1, some 2] [InstEntry.inull, InstEntry.inum 7]) 0
        = some 1
    ∧ instVal (updateInsts [some 1, some 2] [InstEntry.inull, InstEntry.inum 7]) 1
        = some 7 := by
  refine ⟨⟨by decide, ?_⟩, ?_, ?_⟩
  · exact c3_carry_forward_idempotence.1 _ _ (by decide) (by decide) (by decide)
  · rw [(c3_carry_forward_idempotence.2 [some 1, some 2]
      [InstEntry.inull, InstEntry.inum 7]).2 0]
    decide
  · rw [(c3_carry_forward_idempotence.2 [some 1, some 2]
      [InstEntry.inull, InstEntry.inum 7]).2 1]
    decide

/-! ### Aggregator lemmas -/

theorem SAMPLES_PER_H_val : SAMPLES_PER_H = 720 := by
  norm_num [SAMPLES_PER_H, MSEC_PER_H, INTERVAL]

theorem nextIdx_lt (hi : ℕ) (h : hi < SAMPLES_PER_H) :
    nextIdx hi < SAMPLES_PER_H := by
  unfold nextIdx
  by_cases h2 : hi + 1 = SAMPLES_PER_H
  · rw [if_pos h2, SAMPLES_PER_H_val]
    omega
  · rw [if_neg h2]
    omega

theorem posHour_zero (ch hi : ℕ) (h : hi < SAMPLES_PER_H) :
    posHour ch hi 0 = ch := by
  unfold posHour
  rw [SAMPLES_PER_H_val] at h ⊢
  simp only [MSEC_PER_H]
  omega

theorem posIdx_zero (hi : ℕ) (h : hi < SAMPLES_PER_H) : posIdx hi 0 = hi := by
  unfold posIdx
  rw [SAMPLES_PER_H_val] at h ⊢
  omega

theorem nextPos_posHour (ch hi n : ℕ) (h : hi < SAMPLES_PER_H) :
    posHour (nextHour ch hi) (nextIdx hi) n = posHour ch hi (n + 1) := by
  unfold nextHour nextIdx posHour
  by_cases h2 : hi + 1 = SAMPLES_PER_H
  · rw [if_pos h2, if_pos h2]
    rw [SAMPLES_PER_H_val] at h2 ⊢
    simp only [MSEC_PER_H]
    omega
  · rw [if_neg h2, if_neg h2]
    rw [SAMPLES_PER_H_val] at h2 ⊢
    simp only [MSEC_PER_H]
    omega

theorem nextPos_posIdx (hi n : ℕ) (h : hi < SAMPLES_PER_H) :
    posIdx (nextIdx hi) n = posIdx hi (n + 1) := by
  unfold nextIdx posIdx
  by_cases h2 : hi + 1 = SAMPLES_PER_H
  · rw [if_pos h2]
    rw [SAMPLES_PER_H_val] at h2 ⊢
    omega
  · rw [if_neg h2]
    rw [SAMPLES_PER_H_val] at h2 ⊢
    omega

theorem pos_inj (ch hi a b : ℕ) (h : hi < SAMPLES_PER_H)
    (h1 : posHour ch hi a = posHour ch hi b) (h2 : posIdx hi a = posIdx hi b) :
    a = b := by
  unfold posHour at h1
  unfold posIdx at h2
  rw [SAMPLES_PER_H_val] at h1 h2 h
  simp only [MSEC_PER_H] at h1
  omega

theorem feed_data_eq {α : Type} :
    ∀ (vs : List α) (s : AggState α), s.hour_index < SAMPLES_PER_H →
      ∀ hr i, (feed s vs).data hr i
        = orElseD (findWrite vs s.current_hour s.hour_index hr i) (s.data hr i) := by
  intro vs
  induction vs with
  | nil => intro s _ hr i; rfl
  | cons v rest ih =>
      intro s h hr i
      show (feed (tickStep s v) rest).data hr i = _
      rw [ih (tickStep s v) (nextIdx_lt s.hour_index h) hr i]
      show orElseD (findWrite rest (nextHour s.current_hour s.hour_index)
            (nextIdx s.hour_index) hr i) (writeData s v hr i) = _
      simp only [findWrite]
      cases hfw : findWrite rest (nextHour s.current_hour s.hour_index)
          (nextIdx s.hour_index) hr i with
      | some w => rfl
      | none =>
          show writeData s v hr i = _
          unfold writeData orElseD
          by_cases hc : hr = s.current_hour ∧ i = s.hour_index
          · rw [if_pos hc, if_pos hc]
          · rw [if_neg hc, if_neg hc]

theorem findWrite_none {α : Type} :
    ∀ (vs : List α) (ch hi : ℕ), hi < SAMPLES_PER_H →
      ∀ hr i, (∀ n, n < vs.length → ¬(hr = posHour ch hi n ∧ i = posIdx hi n)) →
      findWrite vs ch hi hr i = none := by
  intro vs
  induction vs with
  | nil => intro ch hi _ hr i _; rfl
  | cons v rest ih =>
      intro ch hi h hr i hn
      simp only [findWrite]
      rw [ih (nextHour ch hi) (nextIdx hi) (nextIdx_lt hi h) hr i ?_]
      · have h0 := hn 0 (by simp)
        rw [posHour_zero ch hi h, posIdx_zero hi h] at h0
        rw [if_neg h0]
        rfl
      · intro n hn2
        rw [nextPos_posHour ch hi n h, nextPos_posIdx hi n h]
        exact hn (n + 1) (by simpa using Nat.succ_lt_succ hn2)

theorem findWrite_at {α : Type} :
    ∀ (vs : List α) (ch hi : ℕ), hi < SAMPLES_PER_H →
      ∀ n, n < vs.length →
        findWrite vs ch hi (posHour ch hi n) (posIdx hi n) = vs[n]? := by
  intro vs
  induction vs with
  | nil => intro ch hi _ n hn; simp at hn
  | cons v rest ih =>
      intro ch hi h n hn
      cases n with
      | zero =>
          simp only [findWrite]
          have hnone : findWrite rest (nextHour ch hi) (nextIdx hi)
              (posHour ch hi 0) (posIdx hi 0) = none := by
            apply findWrite_none rest _ _ (nextIdx_lt hi h)
            intro m _ hcontra
            rw [nextPos_posHour ch hi m h, nextPos_posIdx hi m h] at hcontra
            have := pos_inj ch hi 0 (m + 1) h hcontra.1 hcontra.2
            omega
          simp only [hnone]
          rw [posHour_zero ch hi h, posIdx_zero hi h]
          show orElseD none (if ch = ch ∧ hi = hi then some v else none) = _
          rw [if_pos ⟨rfl, rfl⟩]
          show some v = (v :: rest)[0]?
          rw [List.getElem?_cons_zero]
      | succ m =>
          have hm : m < rest.length := by simpa using hn
          simp only [findWrite]
          rw [← nextPos_posHour ch hi m h, ← nextPos_posIdx hi m h,
            ih (nextHour ch hi) (nextIdx hi) (nextIdx_lt hi h) m hm,
            List.getElem?_eq_getElem hm]
          show some rest[m] = (v :: rest)[m + 1]?
          rw [List.getElem?_cons_succ, List.getElem?_eq_getElem hm]

theorem meta_index_lt (t : ℕ) :
    (t - t / MSEC_PER_H * MSEC_PER_H) / INTERVAL < SAMPLES_PER_H := by
  rw [SAMPLES_PER_H_val]
  simp only [MSEC_PER_H, INTERVAL]
  omega

/-- C10: for every meta-message timestamp, the computed `hour_index` is an
in-bounds slot position, so `console.assert(hour_index < SAMPLES_PER_H)`
can never fire. -/
theorem c10_hour_index_bound {α : Type} (s : AggState α) (t : ℕ) :
    (metaStep s t).hour_index < SAMPLES_PER_H :=
  meta_index_lt t

theorem orElseD_none_right {α : Type} (o : Option α) : orElseD o none = o := by
  cases o <;> rfl

theorem posHour_lo (start idx0 n : ℕ) (h : idx0 + n < SAMPLES_PER_H) :
    posHour start idx0 n = start := by
  unfold posHour
  rw [SAMPLES_PER_H_val] at h ⊢
  simp only [MSEC_PER_H]
  omega

theorem posIdx_lo (idx0 n : ℕ) (h : idx0 + n < SAMPLES_PER_H) :
    posIdx idx0 n = idx0 + n := by
  unfold posIdx
  rw [SAMPLES_PER_H_val] at h ⊢
  omega

theorem posHour_hi (start idx0 n : ℕ) (hge : SAMPLES_PER_H ≤ idx0 + n)
    (hlt : idx0 + n < 2 * SAMPLES_PER_H) :
    posHour start idx0 n = start + MSEC_PER_H := by
  unfold posHour
  rw [SAMPLES_PER_H_val] at hge hlt ⊢
  simp only [MSEC_PER_H]
  omega

theorem posIdx_hi (idx0 n : ℕ) (hge : SAMPLES_PER_H ≤ idx0 + n)
    (hlt : idx0 + n < 2 * SAMPLES_PER_H) :
    posIdx idx0 n = idx0 + n - SAMPLES_PER_H := by
  unfold posIdx
  rw [SAMPLES_PER_H_val] at hge hlt ⊢
  omega

/-- C6: feeding a meta message with timestamp T followed by the K samples of
a batch into a fresh load_data state populates exactly K slots: sample n
lands in the window `start = floor(T/MSEC_PER_H)*MSEC_PER_H` at slot
`idx0 + n` where `idx0 = floor((T-start)/INTERVAL)`, as long as that slot
is in range; on crossing the hour boundary the remaining samples land in
the adjacent window `start + MSEC_PER_H` at slots counted from 0.  No other
store position is populated. -/
theorem c6_window_aggregation {α : Type} (T : ℕ) (vs : List α) (start idx0 : ℕ)
    (hstart : start = T / MSEC_PER_H * MSEC_PER_H)
    (hidx : idx0 = (T - start) / INTERVAL)
    (hK : idx0 + vs.length ≤ 2 * SAMPLES_PER_H) :
    (∀ n, n < vs.length →
      (idx0 + n < SAMPLES_PER_H →
        (feed (metaStep (freshAgg α) T) vs).data start (idx0 + n) = vs[n]?)
      ∧ (SAMPLES_PER_H ≤ idx0 + n →
        (feed (metaStep (freshAgg α) T) vs).data (start + MSEC_PER_H)
          (idx0 + n - SAMPLES_PER_H) = vs[n]?))
    ∧ (∀ hr i, (feed (metaStep (freshAgg α) T) vs).data hr i ≠ none →
        ∃ n, n < vs.length ∧
          ((idx0 + n < SAMPLES_PER_H ∧ hr = start ∧ i = idx0 + n)
           ∨ (SAMPLES_PER_H ≤ idx0 + n ∧ hr = start + MSEC_PER_H
              ∧ i = idx0 + n - SAMPLES_PER_H))) := by
  subst hstart
  subst hidx
  have hidxlt : (T - T / MSEC_PER_H * MSEC_PER_H) / INTERVAL < SAMPLES_PER_H :=
    meta_index_lt T
  have hfeed : ∀ hr i,
      (feed (metaStep (freshAgg α) T) vs).data hr i
        = findWrite vs (T / MSEC_PER_H * MSEC_PER_H)
            ((T - T / MSEC_PER_H * MSEC_PER_H) / INTERVAL) hr i := by
    intro hr i
    rw [feed_data_eq vs (metaStep (freshAgg α) T) hidxlt hr i]
    exact orElseD_none_right _
  constructor
  · intro n hn
    have hw := findWrite_at vs (T / MSEC_PER_H * MSEC_PER_H)
      ((T - T / MSEC_PER_H * MSEC_PER_H) / INTERVAL) hidxlt n hn
    constructor
    · intro hlt
      rw [posHour_lo _ _ _ hlt, posIdx_lo _ _ hlt] at hw
      rw [hfeed]
      exact hw
    · intro hge
      have hlt2 : (T - T / MSEC_PER_H * MSEC_PER_H) / INTERVAL + n
          < 2 * SAMPLES_PER_H := by omega
      rw [posHour_hi _ _ _ hge hlt2, posIdx_hi _ _ hge hlt2] at hw
      rw [hfeed]
      exact hw
  · intro hr i hne
    by_contra hnex
    apply hne
    rw [hfeed hr i]
    apply findWrite_none vs _ _ hidxlt hr i
    intro n hn2 hcontra
    apply hnex
    by_cases hcase : (T - T / MSEC_PER_H * MSEC_PER_H) / INTERVAL + n
        < SAMPLES_PER_H
    · exact ⟨n, hn2, Or.inl ⟨hcase,
        hcontra.1.trans (posHour_lo _ _ _ hcase),
        hcontra.2.trans (posIdx_lo _ _ hcase)⟩⟩
    · push_neg at hcase
      have hlt2 : (T - T / MSEC_PER_H * MSEC_PER_H) / INTERVAL + n
          < 2 * SAMPLES_PER_H := by omega
      exact ⟨n, hn2, Or.inr ⟨hcase,
        hcontra.1.trans (posHour_hi _ _ _ hcase hlt2),
        hcontra.2.trans (posIdx_hi _ _ hcase hlt2)⟩⟩

/-- Witness for C6: the meta timestamp 7205000 (2h plus 5s) yields window
start 7200000 and slot index 1; the first of two batch samples lands at
slot 1 of that window. -/
theorem c6_window_aggregation_witness :
    ((7205000 - 7205000 / MSEC_PER_H * MSEC_PER_H) / INTERVAL
        + ([3, 4] : List ℕ).length ≤ 2 * SAMPLES_PER_H)
    ∧ (feed (metaStep (freshAgg ℕ) 7205000) [3, 4]).data
        (7205000 / MSEC_PER_H * MSEC_PER_H)
        ((7205000 - 7205000 / MSEC_PER_H * MSEC_PER_H) / INTERVAL + 0)
      = ([3, 4] : List ℕ)[0]? :=
  ⟨by decide,
   ((c6_window_aggregation 7205000 [3, 4] _ _ rfl rfl (by decide)).1 0
      (by decide)).1 (by decide)⟩

/-- C1 counterexample: a tick written after a re-delivered meta message
targeting an already-populated slot replaces the stored value — in the
unguarded part_000 step (`tickStep`), and also in the guarded part_001 step
(`tickStep1`) whenever the newly decoded first metric is a number.  Slot
(0, 0) first stores 7, then the overlapping fetch stores 9 over it. -/
theorem c1_overwrite_counterexample :
    ((metaStep (tickStep (metaStep (freshAgg ℕ) 0) 7) 0).data 0 0 = some 7)
    ∧ (tickStep (metaStep (tickStep (metaStep (freshAgg ℕ) 0) 7) 0) 9).data 0 0
        = some 9
    ∧ (tickStep1 (metaStep (tickStep (metaStep (freshAgg ℕ) 0) 7) 0) true 9).data 0 0
        = some 9
    ∧ some (9 : ℕ) ≠ some 7 := by
  refine ⟨by decide, by decide, by decide, by decide⟩

/-- C1 (amended): part_000 overwrites a populated slot unconditionally; in
part_001 a populated slot survives a later write exactly when the newly
decoded first metric is not a number (the null-data guard, which then also
skips the cursor advance), while a later write with numeric data — or any
write into an unpopulated slot — stores the new value; positions other than
the cursor are never touched by a tick. -/
theorem c1_slot_write_amended {α : Type} :
    (∀ (s : AggState α) (v : α),
      (tickStep s v).data s.current_hour s.hour_index = some v)
    ∧ (∀ (s : AggState α) (b : Bool) (v : α),
        (b = false → (s.data s.current_hour s.hour_index).isSome = true →
          tickStep1 s b v = s)
        ∧ (b = true →
          (tickStep1 s b v).data s.current_hour s.hour_index = some v)
        ∧ (s.data s.current_hour s.hour_index = none →
          (tickStep1 s b v).data s.current_hour s.hour_index = some v)
        ∧ (∀ hr i, ¬(hr = s.current_hour ∧ i = s.hour_index) →
          (tickStep1 s b v).data hr i = s.data hr i)) := by
  have hwrite : ∀ (s : AggState α) (v : α),
      (tickStep s v).data s.current_hour s.hour_index = some v := by
    intro s v
    show writeData s v s.current_hour s.hour_index = some v
    unfold writeData
    rw [if_pos ⟨rfl, rfl⟩]
  refine ⟨hwrite, fun s b v => ⟨?_, ?_, ?_, ?_⟩⟩
  · intro hb hsome
    unfold tickStep1
    rw [if_pos ⟨hb, hsome⟩]
  · intro hb
    unfold tickStep1
    rw [if_neg (fun hc => by rw [hb] at hc; exact Bool.noConfusion hc.1)]
    exact hwrite s v
  · intro hnone
    unfold tickStep1
    rw [if_neg (fun hc => by rw [hnone] at hc; exact Bool.noConfusion hc.2)]
    exact hwrite s v
  · intro hr i hne
    unfold tickStep1
    by_cases hc : b = false ∧ (s.data s.current_hour s.hour_index).isSome = true
    · rw [if_pos hc]
    · rw [if_neg hc]
      show writeData s v hr i = s.data hr i
      unfold writeData
      rw [if_neg hne]

/-- Witness for the amended C1: a populated slot (holding 7) survives a
later null-data write under the part_001 guard. -/
theorem c1_slot_write_amended_witness :
    ((metaStep (tickStep (freshAgg ℕ) 7) 0).data 0 0).isSome = true
    ∧ tickStep1 (metaStep (tickStep (freshAgg ℕ) 7) 0) false 9
        = metaStep (tickStep (freshAgg ℕ) 7) 0 :=
  ⟨by decide,
   (c1_slot_write_amended.2 (metaStep (tickStep (freshAgg ℕ) 7) 0) false 9).1
     rfl (by decide)⟩

/-! ### Network reducer lemmas (C9) and partial-data lemmas (C2) -/

theorem jsForEachSet_get_inrange {β γ : Type} (pk : γ → Option β) (hole : β) :
    ∀ (l : List γ) (st : List β) (k0 : ℕ), k0 + l.length ≤ st.length →
      ∀ j, (jsForEachSet pk hole l st k0)[j]?
        = orElseD (if k0 ≤ j then (l[j - k0]?).bind pk else none) st[j]? := by
  intro l
  induction l with
  | nil =>
      intro st k0 _ j
      show st[j]? = _
      by_cases h : k0 ≤ j
      · rw [if_pos h]
        simp only [List.getElem?_nil, Option.none_bind]
        rfl
      · rw [if_neg h]
        rfl
  | cons g rest ih =>
      intro st k0 hlen j
      have hk0 : k0 < st.length := by
        have := hlen
        simp only [List.length_cons] at this
        omega
      cases hpk : pk g with
      | some x =>
          rw [show jsForEachSet pk hole (g :: rest) st k0
              = jsForEachSet pk hole rest (jsArraySet hole st k0 x) (k0 + 1) by
            simp only [jsForEachSet, hpk]]
          have hset : jsArraySet hole st k0 x = st.set k0 x := by
            unfold jsArraySet
            rw [if_pos hk0]
          rw [hset, ih (st.set k0 x) (k0 + 1)
            (by rw [List.length_set]; simp only [List.length_cons] at hlen; omega) j,
            List.getElem?_set]
          rcases Nat.lt_trichotomy j k0 with h | h | h
          · rw [if_neg (show ¬ k0 + 1 ≤ j by omega),
              if_neg (show ¬ k0 = j by omega), if_neg (show ¬ k0 ≤ j by omega)]
          · rw [if_neg (show ¬ k0 + 1 ≤ j by omega), if_pos h.symm,
              if_pos hk0, if_pos (show k0 ≤ j by omega),
              show j - k0 = 0 by omega, List.getElem?_cons_zero,
              Option.some_bind, hpk]
            rfl
          · rw [if_pos (show k0 + 1 ≤ j by omega),
              if_neg (show ¬ k0 = j by omega), if_pos (show k0 ≤ j by omega),
              show j - k0 = (j - (k0 + 1)) + 1 by omega,
              List.getElem?_cons_succ]
      | none =>
          rw [show jsForEachSet pk hole (g :: rest) st k0
              = jsForEachSet pk hole rest st (k0 + 1) by
            simp only [jsForEachSet, hpk]]
          rw [ih st (k0 + 1)
            (by simp only [List.length_cons] at hlen; omega) j]
          rcases Nat.lt_trichotomy j k0 with h | h | h
          · rw [if_neg (show ¬ k0 + 1 ≤ j by omega),
              if_neg (show ¬ k0 ≤ j by omega)]
          · rw [if_neg (show ¬ k0 + 1 ≤ j by omega),
              if_pos (show k0 ≤ j by omega), show j - k0 = 0 by omega,
              List.getElem?_cons_zero, Option.some_bind, hpk]
          · rw [if_pos (show k0 + 1 ≤ j by omega),
              if_pos (show k0 ≤ j by omega),
              show j - k0 = (j - (k0 + 1)) + 1 by omega,
              List.getElem?_cons_succ]

theorem netUpd_get (st sample : List JAtom) (hlen : sample.length ≤ st.length)
    (k : ℕ) :
    (netUpd st sample)[k]? = orElseD ((sample[k]?).bind netPick) st[k]? := by
  unfold netUpd
  rw [jsForEachSet_get_inrange netPick JAtom.ahole sample st 0 (by omega) k,
    if_pos (Nat.zero_le k), Nat.sub_zero]

/-- C9: after the per-instance carry-forward update, interface k holds the
newly delivered rate when the tick carries a number there and its prior
value otherwise; and use_network (the JS reduce-sum of the decoded
interface array) on the spec's example — rates [100, 200] followed by the
partial update [null, 300] — is 300, then 400. -/
theorem c9_use_network_sum :
    (∀ (st sample : List JAtom), sample.length ≤ st.length →
      (∀ (k : ℕ) (q : ℚ), sample[k]? = some (JAtom.anum q) →
        (netUpd st sample)[k]? = some (JAtom.anum q))
      ∧ (∀ (k : ℕ), (∀ (q : ℚ), sample[k]? ≠ some (JAtom.anum q)) →
        (netUpd st sample)[k]? = st[k]?))
    ∧ netStep none [JAtom.anum 100, JAtom.anum 200]
        = some [JAtom.anum 100, JAtom.anum 200]
    ∧ jsSumAtoms [JAtom.anum 100, JAtom.anum 200] = 300
    ∧ netStep (some [JAtom.anum 100, JAtom.anum 200]) [JAtom.anull, JAtom.anum 300]
        = some [JAtom.anum 100, JAtom.anum 300]
    ∧ jsSumAtoms [JAtom.anum 100, JAtom.anum 300] = 400 := by
  refine ⟨fun st sample hlen => ⟨?_, ?_⟩, rfl,
    by norm_num [jsSumAtoms], ?_, by norm_num [jsSumAtoms]⟩
  · intro k q hk
    rw [netUpd_get st sample hlen k, hk]
    rfl
  · intro k hk
    rw [netUpd_get st sample hlen k]
    cases hs : sample[k]? with
    | none => rfl
    | some a =>
        cases a with
        | anum q => exact absurd hs (hk q)
        | anull => rfl
        | afls => rfl
        | ahole => rfl
  · show some (netUpd [JAtom.anum 100, JAtom.anum 200]
        [JAtom.anull, JAtom.anum 300]) = _
    decide

/-- Witness for C9: a null (carry-forward) tick entry leaves interface 0
unchanged. -/
theorem c9_use_network_sum_witness :
    ([JAtom.anull] : List JAtom).length
        ≤ ([JAtom.anum 1, JAtom.anull] : List JAtom).length
    ∧ (netUpd [JAtom.anum 1, JAtom.anull] [JAtom.anull])[0]?
        = ([JAtom.anum 1, JAtom.anull] : List JAtom)[0]? := by
  refine ⟨by decide, ?_⟩
  exact (c9_use_network_sum.1 [JAtom.anum 1, JAtom.anull] [JAtom.anull]
    (by decide)).2 0 (by intro q h; simp at h)

/-- C2 counterexample: on the first tick of a fetch the rate-derived
metrics arrive as `false` (not yet computable) — a tick on which the
required sub-inputs of use_cpu and use_network are still unknown.  The
part_000 reducer then stores use_cpu = [null, null, null] (not a null
sample), which the renderer normalizes to 0, and stores use_network = 0
(summing the unavailable interface entries) — zero is substituted for
missing input, contradicting the claim. -/
theorem c2_zero_substitution_counterexample :
    (buildRecord0 (decompress0
        [PSample.pfls, PSample.pfls, PSample.pfls,
         PSample.parr [JAtom.anum 1, JAtom.anum 2, JAtom.anum 1],
         PSample.pnum 1000, PSample.pnum 600,
         PSample.pfls, PSample.pfls, PSample.parr [JAtom.afls]]
        (List.replicate 9 CState0.cnull))).use_cpu0 = CState0.cnull
    ∧ (buildRecord0 (decompress0
        [PSample.pfls, PSample.pfls, PSample.pfls,
         PSample.parr [JAtom.anum 1, JAtom.anum 2, JAtom.anum 1],
         PSample.pnum 1000, PSample.pnum 600,
         PSample.pfls, PSample.pfls, PSample.parr [JAtom.afls]]
        (List.replicate 9 CState0.cnull))).use_network = some 0
    ∧ normalizeUseCpu CState0.cnull CState0.cnull CState0.cnull = some 0
    ∧ (some (0 : ℚ)).isSome = true := by
  have hdec : decompress0
      [PSample.pfls, PSample.pfls, PSample.pfls,
       PSample.parr [JAtom.anum 1, JAtom.anum 2, JAtom.anum 1],
       PSample.pnum 1000, PSample.pnum 600,
       PSample.pfls, PSample.pfls, PSample.parr [JAtom.afls]]
      (List.replicate 9 CState0.cnull)
      = [CState0.cnull, CState0.cnull, CState0.cnull, CState0.cnum 2,
         CState0.cnum 1000, CState0.cnum 600, CState0.cnull, CState0.cnull,
         CState0.carr [JAtom.afls]] := by decide
  refine ⟨?_, ?_, ?_, rfl⟩
  · rw [hdec]
    decide
  · rw [hdec]
    show some (jsSumAtoms [JAtom.afls]) = some 0
    norm_num [jsSumAtoms]
  · show some ((0 + 0 + 0) / 1000 : ℚ) = some 0
    norm_num

/-- C2 (amended): only part_001 maps missing required inputs to no-data,
and only for the guarded derivations: use_cpu is null exactly when entry 2
is not a number, use_memory is null exactly when entry 5 is not a number,
and sat_cpu is null when the load entry is not an array (or its 1-minute
instance is absent).  In part_000 missing inputs are passed through
(nulls inside use_cpu, unavailable interface entries summed as 0), so the
affected resources normalize to zero rather than no-data. -/
theorem c2_partial_data_amended :
    ∀ cs : List StateEntry,
      (entNum (getS cs 2) = none → use_cpu1 cs = none)
      ∧ (∀ q, entNum (getS cs 2) = some q →
          use_cpu1 cs = some (getS cs 0, getS cs 1, getS cs 2))
      ∧ (getS cs 2 = StateEntry.unknown → use_cpu1 cs = none)
      ∧ (∀ a, getS cs 3 = StateEntry.sarr a → sat_cpu1 cs = instVal a 1)
      ∧ (∀ v, getS cs 3 = StateEntry.snum v → sat_cpu1 cs = none)
      ∧ (getS cs 3 = StateEntry.unknown → sat_cpu1 cs = none)
      ∧ (entNum (getS cs 5) = none → use_memory1 cs = none)
      ∧ (∀ q, entNum (getS cs 5) = some q →
          use_memory1 cs = some (getS cs 4, getS cs 5)) := by
  intro cs
  refine ⟨?_, ?_, ?_, ?_, ?_, ?_, ?_, ?_⟩
  · intro h
    unfold use_cpu1
    rw [h]
  · intro q h
    unfold use_cpu1
    rw [h]
  · intro h
    unfold use_cpu1
    rw [show entNum (getS cs 2) = none by rw [h]; rfl]
  · intro a h
    unfold sat_cpu1
    rw [h]
  · intro v h
    unfold sat_cpu1
    rw [h]
  · intro h
    unfold sat_cpu1
    rw [h]
  · intro h
    unfold use_memory1
    rw [h]
  · intro q h
    unfold use_memory1
    rw [h]

/-- Witness for the amended C2: with entries 0-2 still unknown the part_001
record stores use_cpu = null; with numeric entries it stores the triple. -/
theorem c2_partial_data_amended_witness :
    (entNum (getS ([] : List StateEntry) 2) = none
      ∧ use_cpu1 ([] : List StateEntry) = none)
    ∧ (entNum (getS [StateEntry.snum 10, StateEntry.snum 20, StateEntry.snum 5] 2)
        = some 5
      ∧ use_cpu1 [StateEntry.snum 10, StateEntry.snum 20, StateEntry.snum 5]
        = some (StateEntry.snum 10, StateEntry.snum 20, StateEntry.snum 5)) :=
  ⟨⟨by decide, (c2_partial_data_amended []).1 (by decide)⟩,
   ⟨by decide,
    (c2_partial_data_amended
      [StateEntry.snum 10, StateEntry.snum 20, StateEntry.snum 5]).2.1 5
      (by decide)⟩⟩

/-! ### Event detector lemmas (C7) -/

theorem prevAt_zero (norm : List (Option ℚ)) (prev : JVal) :
    prevAt norm prev 0 = prev := by
  cases norm <;> rfl

theorem prevAt_cons_none (rest : List (Option ℚ)) (prev : JVal) (n : ℕ) :
    prevAt ((none : Option ℚ) :: rest) prev (n + 1) = prevAt rest prev n := by
  cases h : lastReal rest n <;> simp [prevAt, lastReal, h]

theorem prevAt_cons_some (rest : List (Option ℚ)) (prev : JVal) (v : ℚ) (n : ℕ) :
    prevAt (some v :: rest) prev (n + 1) = prevAt rest (JVal.jnum v) n := by
  cases h : lastReal rest n <;> simp [prevAt, lastReal, h]

theorem detectFlags_get :
    ∀ (norm : List (Option ℚ)) (prev : JVal) (i : ℕ),
      (detectFlags norm prev)[i]?
        = (norm[i]?).map (fun o =>
            match o with
            | none => false
            | some v => jsTriggers (prevAt norm prev i) v) := by
  intro norm
  induction norm with
  | nil => intro prev i; simp [detectFlags]
  | cons x rest ih =>
      intro prev i
      cases x with
      | none =>
          cases i with
          | zero =>
              show (false :: detectFlags rest prev)[0]? = _
              rw [List.getElem?_cons_zero, List.getElem?_cons_zero]
              rfl
          | succ n =>
              show (false :: detectFlags rest prev)[n + 1]? = _
              rw [List.getElem?_cons_succ, List.getElem?_cons_succ, ih prev n]
              simp only [prevAt_cons_none]
      | some v =>
          cases i with
          | zero =>
              show (jsTriggers prev v :: detectFlags rest (JVal.jnum v))[0]? = _
              rw [List.getElem?_cons_zero, List.getElem?_cons_zero]
              show some (jsTriggers prev v)
                = some (jsTriggers (prevAt (some v :: rest) prev 0) v)
              rw [prevAt_zero]
          | succ n =>
              show (jsTriggers prev v :: detectFlags rest (JVal.jnum v))[n + 1]? = _
              rw [List.getElem?_cons_succ, List.getElem?_cons_succ,
                ih (JVal.jnum v) n]
              simp only [prevAt_cons_some]

theorem trigIdxFrom_mem :
    ∀ (flags : List Bool) (i0 x : ℕ),
      x ∈ trigIdxFrom flags i0 ↔ ∃ k, flags[k]? = some true ∧ x = i0 + k := by
  intro flags
  induction flags with
  | nil =>
      intro i0 x
      simp [trigIdxFrom]
  | cons b rest ih =>
      intro i0 x
      cases b with
      | true =>
          show x ∈ i0 :: trigIdxFrom rest (i0 + 1) ↔ _
          rw [List.mem_cons, ih (i0 + 1) x]
          constructor
          · rintro (h | ⟨k, hk, hx⟩)
            · exact ⟨0, by simp, by omega⟩
            · exact ⟨k + 1, by simpa using hk, by omega⟩
          · rintro ⟨k, hk, hx⟩
            cases k with
            | zero => exact Or.inl (by omega)
            | succ m =>
                exact Or.inr ⟨m, by simpa using hk, by omega⟩
      | false =>
          show x ∈ trigIdxFrom rest (i0 + 1) ↔ _
          rw [ih (i0 + 1) x]
          constructor
          · rintro ⟨k, hk, hx⟩
            exact ⟨k + 1, by simpa using hk, by omega⟩
          · rintro ⟨k, hk, hx⟩
            cases k with
            | zero => simp at hk
            | succ m =>
                exact ⟨m, by simpa using hk, by omega⟩

theorem detectRes_eq_spec {β : Type} (toJ : β → JVal) (nrm : β → ℚ)
    (data : List (Option β))
    (h : ∀ r, data.head? = some (some r) → jsTriggers (toJ r) (nrm r) = false) :
    detectRes toJ nrm data
      = detectFlags (data.map (Option.map nrm)) JVal.jnull := by
  cases data with
  | nil => rfl
  | cons x rest =>
      cases x with
      | none => rfl
      | some r =>
          show jsTriggers (toJ r) (nrm r)
              :: detectFlags (rest.map (Option.map nrm)) (JVal.jnum (nrm r)) = _
          rw [h r rfl]
          rfl

theorem jsTriggers_jnum_eq_false (q v : ℚ) (h : ¬ trigCond q v) :
    jsTriggers (JVal.jnum q) v = false := by
  show decide (trigCond q v) = false
  exact decide_eq_false h

theorem no_head_trigger_of_le (q v : ℚ) (hvq : v ≤ q) (hq : q < 4 / 5 → ¬ 4 / 5 ≤ v) :
    jsTriggers (JVal.jnum q) v = false := by
  apply jsTriggers_jnum_eq_false
  intro htc
  rcases htc with h1 | ⟨h2, h3⟩
  · linarith
  · exact hq h2 h3

/-- C7: the detector fires at sample i exactly when the sample is non-null
and the last non-null previous normalized value p satisfies
`value − p > 0.25` or `p < 0.8 ≤ value` (null samples are skipped without
resetting prev); events are charged to minute `i / SAMPLES_PER_MIN`.  For
each of the six resources the full code detector — whose initial prev is
the RAW first sample — coincides with that description: for nonnegative
scalar data and ceilings ≥ 1 the raw-vs-normalized comparison at sample 0
can never fire (the normalized value never exceeds the raw one by 0.25,
and cannot reach 0.8 while the raw one is below 0.8), and the array-valued
resources compare as NaN. -/
theorem c7_event_detection :
    (∀ (norm : List (Option ℚ)) (i : ℕ),
      (detectFlags norm JVal.jnull)[i]? = specFlag norm i)
    ∧ (∀ (flags : List Bool) (m : ℕ),
        m ∈ eventMinutes flags
          ↔ ∃ k, flags[k]? = some true ∧ m = k / SAMPLES_PER_MIN)
    ∧ (∀ (scale : ℚ) (data : List (Option ℚ)), 1 ≤ scale →
        (∀ r, data.head? = some (some r) → 0 ≤ r) →
        detectRes JVal.jnum (sat_cpu_normalize scale) data
          = detectFlags (data.map (Option.map (sat_cpu_normalize scale)))
              JVal.jnull)
    ∧ (∀ (scale : ℚ) (data : List (Option ℚ)), 1 ≤ scale →
        (∀ r, data.head? = some (some r) → 0 ≤ r) →
        detectRes JVal.jnum (use_disks_normalize scale) data
          = detectFlags (data.map (Option.map (use_disks_normalize scale)))
              JVal.jnull)
    ∧ (∀ (scale : ℚ) (data : List (Option ℚ)), 1 ≤ scale →
        (∀ r, data.head? = some (some r) → 0 ≤ r) →
        detectRes JVal.jnum (use_network_normalize scale) data
          = detectFlags (data.map (Option.map (use_network_normalize scale)))
              JVal.jnull)
    ∧ (∀ (data : List (Option ℚ)),
        (∀ r, data.head? = some (some r) → 0 ≤ r) →
        detectRes JVal.jnum sat_memory_normalize data
          = detectFlags (data.map (Option.map sat_memory_normalize)) JVal.jnull)
    ∧ (∀ (data : List (Option (ℚ × ℚ × ℚ))),
        detectRes cpuToJ use_cpu_normP data
          = detectFlags (data.map (Option.map use_cpu_normP)) JVal.jnull)
    ∧ (∀ (data : List (Option (ℚ × ℚ))),
        detectRes memToJ use_memory_normP data
          = detectFlags (data.map (Option.map use_memory_normP)) JVal.jnull) := by
  refine ⟨?_, ?_, ?_, ?_, ?_, ?_, ?_, ?_⟩
  · intro norm i
    rw [detectFlags_get norm JVal.jnull i]
    unfold specFlag
    have hfun : (fun o : Option ℚ =>
        match o with
        | none => false
        | some v => jsTriggers (prevAt norm JVal.jnull i) v)
      = (fun o : Option ℚ =>
        match o with
        | none => false
        | some v =>
            match lastReal norm i with
            | some p => decide (trigCond p v)
            | none => false) := by
      funext o
      cases o with
      | none => rfl
      | some v =>
          show jsTriggers (prevAt norm JVal.jnull i) v = _
          unfold prevAt
          cases hl : lastReal norm i with
          | some p => simp only [hl]; rfl
          | none => simp only [hl]; rfl
    rw [hfun]
  · intro flags m
    unfold eventMinutes
    rw [List.mem_map]
    constructor
    · rintro ⟨x, hx, hm⟩
      obtain ⟨k, hk, hxk⟩ := (trigIdxFrom_mem flags 0 x).mp hx
      exact ⟨k, hk, by rw [← hm, hxk, Nat.zero_add]⟩
    · rintro ⟨k, hk, hm⟩
      exact ⟨k, (trigIdxFrom_mem flags 0 k).mpr ⟨k, hk, by omega⟩, hm.symm⟩
  · intro scale data hscale hnn
    apply detectRes_eq_spec
    intro r hr
    have hr0 : 0 ≤ r := hnn r hr
    have hs0 : (0 : ℚ) < scale := lt_of_lt_of_le one_pos hscale
    have hvq : sat_cpu_normalize scale r ≤ r := by
      have h1 : min r scale / scale ≤ r / scale :=
        (div_le_div_iff_of_pos_right hs0).mpr (min_le_left r scale)
      have h2 : r / scale ≤ r := div_le_self hr0 hscale
      calc sat_cpu_normalize scale r = min r scale / scale := rfl
        _ ≤ r / scale := h1
        _ ≤ r := h2
    exact no_head_trigger_of_le r _ hvq (fun h2 h3 => by linarith)
  · intro scale data hscale hnn
    apply detectRes_eq_spec
    intro r hr
    have hr0 : 0 ≤ r := hnn r hr
    have hvq : use_disks_normalize scale r ≤ r := div_le_self hr0 hscale
    exact no_head_trigger_of_le r _ hvq (fun h2 h3 => by linarith)
  · intro scale data hscale hnn
    apply detectRes_eq_spec
    intro r hr
    have hr0 : 0 ≤ r := hnn r hr
    have hvq : use_network_normalize scale r ≤ r := div_le_self hr0 hscale
    exact no_head_trigger_of_le r _ hvq (fun h2 h3 => by linarith)
  · intro data hnn
    apply detectRes_eq_spec
    intro r hr
    have hr0 : 0 ≤ r := hnn r hr
    apply jsTriggers_jnum_eq_false
    intro htc
    unfold trigCond sat_memory_normalize at htc
    by_cases h1 : (1000 : ℚ) < r
    · rw [if_pos h1] at htc
      rcases htc with h | ⟨h2, _⟩ <;> linarith
    · rw [if_neg h1] at htc
      by_cases h2 : (1 : ℚ) < r
      · rw [if_pos h2] at htc
        rcases htc with h | ⟨h3, _⟩ <;> linarith
      · rw [if_neg h2] at htc
        rcases htc with h | ⟨_, h4⟩ <;> linarith
  · intro data
    apply detectRes_eq_spec
    intro r _
    rfl
  · intro data
    apply detectRes_eq_spec
    intro r _
    rfl

/-- Witness for C7: the disk series 79 → 81 at ceiling 100 (normalized
0.79 → 0.81) matches the spec detector, and its flags are [false, true] —
exactly one threshold-crossing event, at the minute of sample 1. -/
theorem c7_event_detection_witness :
    (1 : ℚ) ≤ 100
    ∧ detectRes JVal.jnum (use_disks_normalize 100) [some 79, some 81]
        = detectFlags [some ((79 : ℚ) / 100), some ((81 : ℚ) / 100)] JVal.jnull
    ∧ detectFlags [some ((79 : ℚ) / 100), some ((81 : ℚ) / 100)] JVal.jnull
        = [false, true] := by
  refine ⟨by norm_num, ?_, ?_⟩
  · exact c7_event_detection.2.2.2.1 100 [some 79, some 81] (by norm_num)
      (by intro r h; simp at h; linarith)
  · show [false, decide (trigCond ((79 : ℚ) / 100) ((81 : ℚ) / 100))]
        = [false, true]
    have : trigCond ((79 : ℚ) / 100) ((81 : ℚ) / 100) :=
      Or.inr ⟨by norm_num, by norm_num⟩
    simp [this]
